import Mathlib

/-!
Verification of the kode-review-cli semantic code indexer.

This development gives a shallow embedding, in Lean 4, of the core data
model and algorithms of the indexer found under src/indexer/docker:

* the full-indexing delete step (indexer.py, delete_existing_index),
* the AST chunker (ast_chunker.py: extract_semantic_units,
  should_separate_nested, chunk_with_ast, find_uncovered_ranges),
* chunk relationship extraction (cocoindex_flow.py, extract_relationships),
* the BM25 exact-match boost (bm25.py: normalize_identifier,
  calculate_exact_match_boost),
* hybrid Reciprocal Rank Fusion (hybrid.py: HybridSearchConfig,
  calculate_rrf_score, combine_results) and the vector fallback branch of
  the hybrid-search endpoint (main.py, hybrid_search),
* deterministic chunk ids (cocoindex_flow.py, generate_chunk_id, with a
  full SHA-1 / RFC 4122 version-5 UUID implementation),
* the file-level graph builder (import_graph.py: build_import_graph,
  get_import_tree),
* parameter validation of the call-graph endpoint (main.py, get_callgraph).

Python text is modelled on lists of characters (Lean String primitives such
as String.startsWith do not reduce in the kernel), machine floats are
modelled as exact rationals, and external collaborators (the tree-sitter
parse step, the SQL engine, the embedding model) appear as explicit inputs:
a parse tree value, lists of table rows, abstract resolver functions.
Python dicts are modelled as insertion-ordered association lists, matching
the guaranteed iteration order of dict in Python 3.7 and later, and the
stable Python list sort is modelled by List.insertionSort, which is stable
in exactly the same sense.
-/

/- Rational arithmetic must evaluate inside the kernel for the concrete
   counterexamples below; these core operations are irreducible by default. -/
attribute [local semireducible] Rat.add Rat.mul Rat.inv Rat.sub

/-! ## Generic helpers: Python string and dict primitives on char lists -/

/-- Python substring test (needle in hay) on character lists. -/
def charsInfix (needle : List Char) : List Char → Bool
  | [] => needle.isEmpty
  | c :: rest => needle.isPrefixOf (c :: rest) || charsInfix needle rest

/-- Python needle in hay for Lean strings. -/
def strContains (hay needle : String) : Bool :=
  charsInfix needle.toList hay.toList

/-- Python s.startswith(pre). -/
def pyStartsWith (s pre : String) : Bool :=
  pre.toList.isPrefixOf s.toList

/-- Python s.lower() on a character list (ASCII, as in the indexer inputs). -/
def pyLower (s : List Char) : List Char :=
  s.map Char.toLower

/-- Python s.strip(): drop leading and trailing whitespace. -/
def pyTrim (s : List Char) : List Char :=
  ((s.dropWhile Char.isWhitespace).reverse.dropWhile Char.isWhitespace).reverse

/-- True when a line is empty or whitespace only; this is the test
    line.strip() == empty used by the chunker for blank gap content. -/
def isBlankStr (s : String) : Bool :=
  s.toList.all Char.isWhitespace

/-- Python str.split() with no separator: split on whitespace runs and drop
    the empty pieces. -/
def pySplitWs (s : List Char) : List (List Char) :=
  (List.splitOnP (fun c => c.isWhitespace) s).filter (fun w => !w.isEmpty)

/-- Python str.capitalize(): first character upper-cased, the rest lower. -/
def pyCapitalize (w : List Char) : List Char :=
  match w with
  | [] => []
  | c :: cs => c.toUpper :: pyLower cs

/-- Lookup in an insertion-ordered association list (Python dict read). -/
def assocGet (m : List (String × α)) (k : String) : Option α :=
  (m.find? (fun p => p.1 == k)).map (fun p => p.2)

/-- Write to an insertion-ordered association list (Python dict write): an
    existing key keeps its position, a new key is appended at the end. -/
def assocSet : List (String × α) → String → α → List (String × α)
  | [], k, v => [(k, v)]
  | (k0, v0) :: rest, k, v =>
    if k0 == k then (k0, v) :: rest else (k0, v0) :: assocSet rest k v

/-- Deduplication keeping the first occurrence, as in list(dict.fromkeys(l))
    and the seen-set loops of the source. -/
def dedupKeepFirst [BEq α] (seen : List α) : List α → List α
  | [] => []
  | x :: xs =>
    if seen.contains x then dedupKeepFirst seen xs
    else x :: dedupKeepFirst (seen ++ [x]) xs

/-! ## C1: full-mode delete step (indexer.py)

The database state carries the two chunk stores written by
index_repository: the legacy code_embeddings table and the chunks table,
plus the relationships table whose rows reference chunks by id. -/

/-- One row of the legacy code_embeddings table (the columns used by the
    delete step). -/
structure CodeEmbeddingRow where
  repo_id : String
  branch : String
  filename : String
  location : String
deriving DecidableEq, Repr

/-- One row of the chunks table (the columns used by the delete step). -/
structure ChunkRow where
  id : String
  repo_id : String
  branch : String
  file_path : String
deriving DecidableEq, Repr

/-- One row of the relationships table. -/
structure RelationshipRow where
  source_chunk_id : String
  target_chunk_id : String
  relationship_type : String
deriving DecidableEq, Repr

/-- The slice of database state touched by full-mode indexing. -/
structure DbState where
  code_embeddings : List CodeEmbeddingRow
  chunks : List ChunkRow
  relationships : List RelationshipRow
deriving DecidableEq, Repr

/-- Models delete_existing_index (indexer.py lines 265-274): the single SQL
    statement DELETE FROM code_embeddings WHERE repo_id = X AND branch = Y.
    No other table is touched by the full-mode delete step; this is the
    statement index_repository runs before writing new chunks. -/
def delete_existing_index (db : DbState) (repoId branch : String) : DbState :=
  { db with
    code_embeddings :=
      db.code_embeddings.filter
        (fun r => !(r.repo_id == repoId && r.branch == branch)) }

/-! ## C10: call-graph endpoint validation (main.py, get_callgraph) -/

/-- Outcome of the parameter-validation prefix of get_callgraph: either an
    HTTPException with status 400, or the request proceeds with the clamped
    traversal depth. -/
inductive CallgraphCheck where
  | badRequest (detail : String)
  | proceed (effectiveDepth : Int)
deriving DecidableEq, Repr

/-- True when the outcome is the 400 error. -/
def CallgraphCheck.isBadRequest : CallgraphCheck → Bool
  | .badRequest _ => true
  | .proceed _ => false

/-- Models the validation prefix of get_callgraph (main.py lines 1395-1411):
    the direction whitelist check, the depth clamp
    depth = max(1, min(depth, 5)), and the repo_url presence check, in the
    order the source performs them. The later except HTTPException: raise
    clause re-raises the 400 unchanged, so the missing repo_url error is not
    converted to a 500. A missing repo_url is None or the empty string,
    matching Python falsiness of Optional[str]. -/
def get_callgraph_validate (direction : String) (repoUrl : Option String)
    (depth : Int) : CallgraphCheck :=
  if !(direction == "callers" || direction == "callees" || direction == "both") then
    .badRequest "Invalid direction"
  else
    let depth := max 1 (min depth 5)
    if (repoUrl.getD "") == "" then
      .badRequest "repo_url is required"
    else
      .proceed depth

/-! ## C2 and C7: the AST chunker (ast_chunker.py)

The tree-sitter parse step is an external collaborator, so the chunker is
modelled over an abstract parse tree. A node carries the outcome of the
language-configuration membership tests performed by the source
(node.type in function_types and so on), the declared name as returned by
get_node_name, the zero-indexed start and end rows from tree-sitter
start_point and end_point, the decoded node text, and the result of
get_leading_comments for the node (the empty string when there are none,
otherwise the joined comment text ending in a newline, exactly the shape
the source produces). Children are a mutually inductive forest so that the
extraction functions are structural recursions the kernel can evaluate. -/

mutual
/-- An abstract tree-sitter node, with the language-configuration tests
    pre-computed. -/
inductive RawNode : Type where
  | mk
      (isFunctionType : Bool)
      (isClassType : Bool)
      (isMethodType : Bool)
      (isInterfaceType : Bool)
      (name : Option String)
      (startRow : Int)
      (endRow : Int)
      (text : String)
      (commentText : String)
      (children : RawForest) : RawNode

/-- The children of a node. -/
inductive RawForest : Type where
  | nil : RawForest
  | cons : RawNode → RawForest → RawForest
end

/-- The semantic-unit record produced by extract_semantic_units
    (the ASTNode dataclass of ast_chunker.py). -/
structure ASTUnit where
  node_type : String
  name : Option String
  start_line : Int
  end_line : Int
  content : String
  children : List ASTUnit
  leading_comments : String
deriving Repr

/-- ASTNode.line_count: end_line - start_line + 1. -/
def ASTUnit.line_count (u : ASTUnit) : Int :=
  u.end_line - u.start_line + 1

/-- Number of newline characters in a string, Python text.count of a
    newline; used for the comment_lines computation of the source. -/
def newlineCount (s : String) : Int :=
  (s.toList.filter (fun c => c == '\n')).length

mutual
/-- Models extract_semantic_units (ast_chunker.py lines 618-689). A node
    whose kind is in the function, class, method (only under a class-like
    parent) or interface sets becomes a semantic unit: its start line is
    extended upward by the number of leading-comment lines, its chunk type
    is decided in the source order class, interface, method, function, and
    a class unit additionally collects the semantic units of its children
    with parent_is_class set. Any other node recurses into its children. -/
def extract_semantic_units : RawNode → Bool → List ASTUnit
  | .mk isF isC isM isI name sRow eRow text cmt cs, parentIsClass =>
    let isFunction := isF
    let isClass := isC
    let isMethod := isM && parentIsClass
    let isInterface := isI
    if isFunction || isClass || isMethod || isInterface then
      let startLine : Int :=
        if cmt == "" then sRow + 1 else sRow + 1 - newlineCount cmt
      let endLine : Int := eRow + 1
      let chunkType :=
        if isClass then "class"
        else if isInterface then "interface"
        else if isMethod then "method"
        else "function"
      let childUnits :=
        if isClass then extract_semantic_units_forest cs true else []
      [{ node_type := chunkType, name := name, start_line := startLine,
         end_line := endLine, content := cmt ++ text, children := childUnits,
         leading_comments := cmt }]
    else
      extract_semantic_units_forest cs parentIsClass

/-- The generator loop of extract_semantic_units over the children of a
    node, in order. -/
def extract_semantic_units_forest : RawForest → Bool → List ASTUnit
  | .nil, _ => []
  | .cons c rest, parentIsClass =>
    extract_semantic_units c parentIsClass ++
      extract_semantic_units_forest rest parentIsClass
end

/-- Models should_separate_nested (ast_chunker.py lines 692-699): a nested
    unit is extracted separately exactly when its line count reaches
    NESTED_FUNCTION_SIZE_THRESHOLD. The threshold is read from the
    NESTED_FUNCTION_THRESHOLD environment variable with default 50; the
    default is used here. -/
def NESTED_FUNCTION_SIZE_THRESHOLD : Int := 50

/-- should_separate_nested(nested, parent): nested.line_count >= threshold.
    The parent argument is unused by the source as well. -/
def should_separate_nested (nested _parent : ASTUnit) : Bool :=
  decide (NESTED_FUNCTION_SIZE_THRESHOLD ≤ nested.line_count)

mutual
/-- Models the traverse closure of extract_all_symbols_from_chunk
    (ast_chunker.py lines 554-597): collect names of symbol-defining nodes
    whose line range meets the window, pruning subtrees entirely outside
    it. -/
def extract_all_symbols_node : RawNode → Int → Int → List String
  | .mk isF isC isM isI name sRow eRow _ _ cs, startLine, endLine =>
    let nodeStart : Int := sRow + 1
    let nodeEnd : Int := eRow + 1
    if nodeEnd < startLine || endLine < nodeStart then []
    else
      let fromUnit :=
        if isF || isC || isM then
          match name with
          | some n => [n]
          | none => []
        else []
      let fromInterface :=
        if isI then
          match name with
          | some n => [n]
          | none => []
        else []
      fromUnit ++ fromInterface ++ extract_all_symbols_forest cs startLine endLine

/-- The child loop of the symbol traversal. -/
def extract_all_symbols_forest : RawForest → Int → Int → List String
  | .nil, _, _ => []
  | .cons c rest, startLine, endLine =>
    extract_all_symbols_node c startLine endLine ++
      extract_all_symbols_forest rest startLine endLine
end

/-- extract_all_symbols_from_chunk: the traversal result deduplicated
    preserving order (list(dict.fromkeys(symbols))). -/
def extract_all_symbols_from_chunk (root : RawNode) (startLine endLine : Int) :
    List String :=
  dedupKeepFirst [] (extract_all_symbols_node root startLine endLine)

/-- The chunk record produced by the chunker (the CodeChunk dataclass of
    ast_chunker.py). -/
structure CodeChunk where
  filename : String
  location : String
  code : String
  start_line : Int
  end_line : Int
  chunk_type : String
  symbol_name : Option String
  symbol_names : List String
  imports : List String
  exports : List String
deriving DecidableEq, Repr

/-- The location string of a chunk, the Python f-string start-end. -/
def rangeLocation (startLine endLine : Int) : String :=
  toString startLine ++ "-" ++ toString endLine

/-- The loop body of find_uncovered_ranges: walk the covered ranges with a
    cursor starting at line 1, emitting a gap before any range that starts
    beyond the cursor and advancing the cursor with
    current_pos = max(current_pos, end + 1). Returns the final cursor and
    the gaps emitted by the loop. -/
def find_uncovered_loop : Int → List (Int × Int) → Int × List (Int × Int)
  | currentPos, [] => (currentPos, [])
  | currentPos, (s, e) :: rest =>
    let headGaps := if currentPos < s then [(currentPos, s - 1)] else []
    let r := find_uncovered_loop (max currentPos (e + 1)) rest
    (r.1, headGaps ++ r.2)

/-- Models find_uncovered_ranges (ast_chunker.py lines 842-861): the line
    ranges of [1, total_lines] not covered by any given range, with a final
    gap up to total_lines when the cursor has not passed it. -/
def find_uncovered_ranges (covered : List (Int × Int)) (totalLines : Int) :
    List (Int × Int) :=
  if covered.isEmpty then [(1, totalLines)]
  else
    let r := find_uncovered_loop 1 covered
    if r.1 ≤ totalLines then r.2 ++ [(r.1, totalLines)] else r.2

/-- Python list slice lines[a - 1 : b] for 1-indexed inclusive line bounds
    (both bounds at least 1 whenever the chunker calls this). -/
def sliceLines (lines : List String) (a b : Int) : List String :=
  (lines.drop (a - 1).toNat).take (b - (a - 1)).toNat

/-- The chunk emitted for a large nested unit (ast_chunker.py lines
    760-781): symbol_names is the nested name followed by the names of its
    children; imports and exports are empty. -/
def nested_chunk (filename : String) (nested : ASTUnit) : CodeChunk :=
  let nestedSymbols :=
    (match nested.name with
     | some n => [n]
     | none => []) ++ nested.children.filterMap (fun c => c.name)
  { filename := filename,
    location := rangeLocation nested.start_line nested.end_line,
    code := nested.content,
    start_line := nested.start_line,
    end_line := nested.end_line,
    chunk_type := nested.node_type,
    symbol_name := nested.name,
    symbol_names := nestedSymbols,
    imports := [],
    exports := [] }

/-- The chunk emitted for a top-level semantic unit (ast_chunker.py lines
    783-804): a class unit also lists its child method names, and the unit
    exports its own name when that name is among the file exports. -/
def unit_chunk (filename : String) (fileExports : List String)
    (u : ASTUnit) : CodeChunk :=
  let unitSymbols :=
    (match u.name with
     | some n => [n]
     | none => []) ++
    (if u.node_type == "class" && !u.children.isEmpty then
       u.children.filterMap (fun c => c.name)
     else [])
  { filename := filename,
    location := rangeLocation u.start_line u.end_line,
    code := u.content,
    start_line := u.start_line,
    end_line := u.end_line,
    chunk_type := u.node_type,
    symbol_name := u.name,
    symbol_names := unitSymbols,
    imports := [],
    exports :=
      match u.name with
      | some n => if fileExports.contains n then [n] else []
      | none => [] }

/-- The chunks contributed by one semantic unit in the main loop of
    chunk_with_ast (ast_chunker.py lines 755-806): when the unit has
    children, every child passing should_separate_nested is emitted as a
    standalone chunk, and the unit chunk itself always follows. -/
def unit_contribution (filename : String) (fileExports : List String)
    (u : ASTUnit) : List CodeChunk :=
  (if !u.children.isEmpty then
     (u.children.filter (fun c => should_separate_nested c u)).map
       (nested_chunk filename)
   else []) ++ [unit_chunk filename fileExports u]

/-- Lexicographic order on pairs: Python tuple comparison used by
    covered_ranges.sort(). -/
def pairLexLe (a b : Int × Int) : Prop :=
  a.1 < b.1 ∨ (a.1 = b.1 ∧ a.2 ≤ b.2)

instance : DecidableRel pairLexLe := fun a b => by
  unfold pairLexLe; infer_instance

/-- Models chunk_with_ast (ast_chunker.py lines 702-839). The parse step is
    external, so the function receives the parse tree, the line list
    content.split over newline, and the results of extract_imports and
    extract_exports for the file (regular-expression extractors whose
    output only fills the imports and exports fields). With no semantic
    units the whole file is one module chunk; otherwise the sorted units
    contribute their chunks, every gap between covered ranges with any
    non-blank content becomes an other chunk carrying the file imports, and
    the result is sorted by start line. Python list.sort is stable, as is
    List.insertionSort. -/
def chunk_with_ast (tree : RawNode) (lines : List String) (filename : String)
    (fileImports fileExports : List String) : List CodeChunk :=
  let totalLines : Int := lines.length
  let semanticUnits := extract_semantic_units tree false
  if semanticUnits.isEmpty then
    [{ filename := filename,
       location := rangeLocation 1 totalLines,
       code := String.intercalate "\n" lines,
       start_line := 1,
       end_line := totalLines,
       chunk_type := "module",
       symbol_name := none,
       symbol_names := extract_all_symbols_from_chunk tree 1 totalLines,
       imports := fileImports,
       exports := fileExports }]
  else
    let sortedUnits :=
      List.insertionSort (fun a b => a.start_line ≤ b.start_line) semanticUnits
    let unitChunks := sortedUnits.flatMap (unit_contribution filename fileExports)
    let coveredRanges :=
      List.insertionSort pairLexLe
        (sortedUnits.map (fun u => (u.start_line, u.end_line)))
    let gaps := find_uncovered_ranges coveredRanges totalLines
    let gapChunks := gaps.filterMap (fun g =>
      let gapLines := sliceLines lines g.1 g.2
      if gapLines.any (fun l => !isBlankStr l) then
        some { filename := filename,
               location := rangeLocation g.1 g.2,
               code := String.intercalate "\n" gapLines,
               start_line := g.1,
               end_line := g.2,
               chunk_type := "other",
               symbol_name := none,
               symbol_names := extract_all_symbols_from_chunk tree g.1 g.2,
               imports := fileImports,
               exports := [] }
      else none)
    List.insertionSort (fun a b => a.start_line ≤ b.start_line)
      (unitChunks ++ gapChunks)

/-! ## C3: chunk relationship extraction (cocoindex_flow.py)

extract_relationships works on ChunkInfo records loaded from the chunks
table. Only the fields the function reads are modelled; the metadata dict
of a relationship holds a single entry (imported_symbol or symbol), kept
here as a plain string field. -/

/-- The fields of ChunkInfo read by extract_relationships. -/
structure ChunkInfo where
  chunk_id : String
  filename : String
  content : String
  symbol_names : List String
  imports : List String
  exports : List String
deriving DecidableEq, Repr

/-- A relationship between two chunks (the RelationshipInfo dataclass);
    metadataSymbol is the single metadata value the source stores. -/
structure RelationshipInfo where
  source_chunk_id : String
  target_chunk_id : String
  relationship_type : String
  metadataSymbol : String
deriving DecidableEq, Repr

/-- The export-map build of extract_relationships (cocoindex_flow.py lines
    519-539): every symbol in symbol_names appends the chunk id
    unconditionally; every explicit export skips star re-exports and
    appends the chunk id only when absent. -/
def buildExportMap (chunks : List ChunkInfo) : List (String × List String) :=
  chunks.foldl
    (fun m chunk =>
      let m :=
        chunk.symbol_names.foldl
          (fun m symbol => assocSet m symbol ((assocGet m symbol).getD [] ++ [chunk.chunk_id]))
          m
      chunk.exports.foldl
        (fun m exp =>
          if pyStartsWith exp "* from " then m
          else
            let cur := (assocGet m exp).getD []
            if cur.contains chunk.chunk_id then m
            else assocSet m exp (cur ++ [chunk.chunk_id]))
        m)
    []

/-- The imports pass of extract_relationships (cocoindex_flow.py lines
    541-559): for every imported name found in the export map, one imports
    edge per exporting chunk other than the importer itself. -/
def importsPass (chunks : List ChunkInfo)
    (exportMap : List (String × List String)) : List RelationshipInfo :=
  chunks.flatMap (fun chunk =>
    chunk.imports.flatMap (fun imported =>
      match assocGet exportMap imported with
      | none => []
      | some targets =>
        targets.filterMap (fun target =>
          if target != chunk.chunk_id then
            some { source_chunk_id := chunk.chunk_id,
                   target_chunk_id := target,
                   relationship_type := "imports",
                   metadataSymbol := imported }
          else none)))

/-- The references pass of extract_relationships (cocoindex_flow.py lines
    561-599), translated with the Python operator precedence of the source
    condition preserved:
    (not existing and sym-open-paren in content) or sym-dot in content or
    padded sym in content. The existing imports-edge check therefore only
    guards the call-parenthesis pattern. Symbols shorter than 3 characters
    are skipped. -/
def referencesPass (chunks : List ChunkInfo)
    (rels : List RelationshipInfo) : List RelationshipInfo :=
  chunks.foldl
    (fun rels chunk =>
      chunk.symbol_names.foldl
        (fun rels symbol =>
          if symbol == "" || symbol.length < 3 then rels
          else
            chunks.foldl
              (fun rels other =>
                if other.chunk_id == chunk.chunk_id then rels
                else
                  let existing := rels.any (fun r =>
                    r.source_chunk_id == other.chunk_id &&
                    r.target_chunk_id == chunk.chunk_id &&
                    r.relationship_type == "imports")
                  if (!existing && strContains other.content (symbol ++ "(")) ||
                      strContains other.content (symbol ++ ".") ||
                      strContains other.content (" " ++ symbol ++ " ") then
                    if other.chunk_id != chunk.chunk_id then
                      rels ++ [{ source_chunk_id := other.chunk_id,
                                 target_chunk_id := chunk.chunk_id,
                                 relationship_type := "references",
                                 metadataSymbol := symbol }]
                    else rels
                  else rels)
              rels)
        rels)
    rels

/-- The final deduplication of extract_relationships by the key
    (source, target, type), keeping the first occurrence. -/
def dedupRelationships (seen : List (String × String × String)) :
    List RelationshipInfo → List RelationshipInfo
  | [] => []
  | r :: rest =>
    let key := (r.source_chunk_id, r.target_chunk_id, r.relationship_type)
    if seen.contains key then dedupRelationships seen rest
    else r :: dedupRelationships (seen ++ [key]) rest

/-- Models extract_relationships (cocoindex_flow.py lines 500-610): build
    the export map, emit imports edges, emit references edges, and
    deduplicate. -/
def extract_relationships (chunks : List ChunkInfo) : List RelationshipInfo :=
  dedupRelationships []
    (referencesPass chunks (importsPass chunks (buildExportMap chunks)))

/-! ## C4: the BM25 exact-match boost (bm25.py) -/

/-- The camelCase-splitting substitution of normalize_identifier: insert a
    space between a lower-case letter and the upper-case letter following
    it, scanning left to right without overlap, exactly as the regular
    expression substitution of a lower-upper pair with the spaced pair. -/
def camelSub : List Char → List Char
  | [] => []
  | [c] => [c]
  | a :: b :: rest =>
    if a.isLower && b.isUpper then a :: ' ' :: b :: camelSub rest
    else a :: camelSub (b :: rest)

/-- The seen-set filter at the end of normalize_identifier: keep a
    variation when it is non-empty and not seen before. -/
def dedupDropEmpty (seen : List (List Char)) :
    List (List Char) → List (List Char)
  | [] => []
  | v :: vs =>
    if seen.contains v || v.isEmpty then dedupDropEmpty seen vs
    else v :: dedupDropEmpty (seen ++ [v]) vs

/-- Models normalize_identifier (bm25.py lines 40-76): the lower-cased
    identifier, the camelCase split parts with their underscore join, the
    snake_case split parts with their re-camelised (then lower-cased) join,
    deduplicated preserving order and dropping empties. -/
def normalize_identifier (identifier : List Char) : List (List Char) :=
  let variations := [pyLower identifier]
  let camelParts := pySplitWs (pyLower (camelSub identifier))
  let variations :=
    if camelParts.length > 1 then
      variations ++ camelParts ++ [List.intercalate ['_'] camelParts]
    else variations
  let snakeParts := (pyLower identifier).splitOn '_'
  let variations :=
    if snakeParts.length > 1 then
      let camelVersion :=
        (snakeParts.headD []) ++ (snakeParts.tail.map pyCapitalize).flatten
      variations ++ snakeParts ++ [pyLower camelVersion]
    else variations
  dedupDropEmpty [] variations

/-- The symbol loop of calculate_exact_match_boost: the first symbol that
    matches decides the boost; an exact lower-case match returns the full
    multiplier, a variation overlap returns multiplier times 0.7, and a
    symbol matching neither lets the loop continue. -/
def boostLoop (queryNormalized : List Char)
    (queryVariations : List (List Char)) (mult : Rat) : List String → Rat
  | [] => 1
  | s :: rest =>
    let symbolLower := pyLower s.toList
    let symbolVariations := normalize_identifier s.toList
    if queryNormalized == symbolLower then mult
    else if queryVariations.any (fun v => symbolVariations.contains v) then
      mult * (7/10)
    else boostLoop queryNormalized queryVariations mult rest

/-- Models calculate_exact_match_boost (bm25.py lines 119-158): 1.0 for an
    empty symbol list, otherwise the loop above over the symbols with the
    query lower-cased and stripped for the exact comparison and the raw
    query fed to normalize_identifier for the variation comparison. The
    multiplier defaults to 3.0. -/
def calculate_exact_match_boost (query : String) (symbolNames : List String)
    (mult : Rat := 3) : Rat :=
  if symbolNames.isEmpty then 1
  else
    boostLoop (pyTrim (pyLower query.toList)) (normalize_identifier query.toList)
      mult symbolNames

/-! ## C5 and C6: hybrid Reciprocal Rank Fusion (hybrid.py, main.py)

Scores are Python floats in the source; they are modelled as exact
rationals. Result rows are the dict rows the endpoint builds from SQL
results; only the fields combine_results reads are modelled, already under
the primary field names the endpoint produces (id, score, final_score). -/

/-- RRF_K, the hybrid.py module constant. -/
def RRF_K : Rat := 60

/-- Default weighting: 60 percent vector. -/
def DEFAULT_VECTOR_WEIGHT : Rat := 6/10

/-- Default weighting: 40 percent keyword. -/
def DEFAULT_KEYWORD_WEIGHT : Rat := 4/10

/-- The HybridSearchConfig dataclass (hybrid.py lines 55-68). -/
structure HybridSearchConfig where
  vector_weight : Rat
  keyword_weight : Rat
  rrf_k : Rat
  fallback_to_vector : Bool
deriving DecidableEq, Repr

/-- The dataclass constructor together with its post-init hook: when the
    weight total is positive, both weights are divided by it so they sum to
    one; otherwise they are left as given. -/
def mkHybridSearchConfig (vw kw : Rat) (k : Rat := RRF_K)
    (fb : Bool := true) : HybridSearchConfig :=
  let total := vw + kw
  if 0 < total then
    { vector_weight := vw / total, keyword_weight := kw / total,
      rrf_k := k, fallback_to_vector := fb }
  else
    { vector_weight := vw, keyword_weight := kw,
      rrf_k := k, fallback_to_vector := fb }

/-- Models calculate_rrf_score (hybrid.py lines 103-123): zero for a
    missing rank, weight over k plus rank otherwise. -/
def calculate_rrf_score (rank : Option Nat) (weight : Rat)
    (k : Rat := RRF_K) : Rat :=
  match rank with
  | none => 0
  | some r => weight / (k + (r : Rat))

/-- A row of the vector search result list fed to combine_results. -/
structure VectorResultRow where
  id : String
  file_path : String
  content : String
  line_start : Int
  line_end : Int
  symbol_names : List String
  score : Rat
deriving DecidableEq, Repr

/-- A row of the keyword search result list fed to combine_results;
    final_score is bm25_score times the exact-match boost. -/
structure KeywordResultRow where
  id : String
  file_path : String
  content : String
  line_start : Int
  line_end : Int
  symbol_names : List String
  final_score : Rat
deriving DecidableEq, Repr

/-- The HybridMatch dataclass (hybrid.py lines 31-52), with the scoring
    breakdown and source tracking. -/
structure HybridMatch where
  chunk_id : String
  file_path : String
  content : String
  line_start : Int
  line_end : Int
  symbol_names : List String
  vector_score : Rat
  vector_rank : Option Nat
  keyword_score : Rat
  keyword_rank : Option Nat
  rrf_score : Rat
  sources : List String
deriving DecidableEq, Repr

/-- The deduplication key of combine_results: the chunk id when non-empty,
    otherwise file path and line bounds. -/
def resultKey (chunkId filePath : String) (lineStart lineEnd : Int) : String :=
  if chunkId != "" then chunkId
  else filePath ++ ":" ++ toString lineStart ++ ":" ++ toString lineEnd

/-- One step of the vector pass of combine_results (hybrid.py lines
    159-199): a new key appends a fresh match sourced vector, an existing
    key has its vector score, vector rank and sources updated in place. -/
def processVectorResult (m : List (String × HybridMatch)) (rank : Nat)
    (r : VectorResultRow) : List (String × HybridMatch) :=
  let key := resultKey r.id r.file_path r.line_start r.line_end
  match assocGet m key with
  | none =>
    m ++ [(key,
      { chunk_id := r.id, file_path := r.file_path, content := r.content,
        line_start := r.line_start, line_end := r.line_end,
        symbol_names := r.symbol_names,
        vector_score := r.score, vector_rank := some rank,
        keyword_score := 0, keyword_rank := none,
        rrf_score := 0, sources := ["vector"] })]
  | some hm =>
    assocSet m key
      { hm with
        vector_score := r.score, vector_rank := some rank,
        sources :=
          if hm.sources.contains "vector" then hm.sources
          else hm.sources ++ ["vector"] }

/-- The vector pass loop, with ranks enumerated from the given start. -/
def processVectorResults (m : List (String × HybridMatch)) (rank : Nat) :
    List VectorResultRow → List (String × HybridMatch)
  | [] => m
  | r :: rest => processVectorResults (processVectorResult m rank r) (rank + 1) rest

/-- One step of the keyword pass of combine_results (hybrid.py lines
    201-241), symmetric to the vector pass with final_score for the
    keyword score and the keyword source tag. -/
def processKeywordResult (m : List (String × HybridMatch)) (rank : Nat)
    (r : KeywordResultRow) : List (String × HybridMatch) :=
  let key := resultKey r.id r.file_path r.line_start r.line_end
  match assocGet m key with
  | none =>
    m ++ [(key,
      { chunk_id := r.id, file_path := r.file_path, content := r.content,
        line_start := r.line_start, line_end := r.line_end,
        symbol_names := r.symbol_names,
        vector_score := 0, vector_rank := none,
        keyword_score := r.final_score, keyword_rank := some rank,
        rrf_score := 0, sources := ["keyword"] })]
  | some hm =>
    assocSet m key
      { hm with
        keyword_score := r.final_score, keyword_rank := some rank,
        sources :=
          if hm.sources.contains "keyword" then hm.sources
          else hm.sources ++ ["keyword"] }

/-- The keyword pass loop. -/
def processKeywordResults (m : List (String × HybridMatch)) (rank : Nat) :
    List KeywordResultRow → List (String × HybridMatch)
  | [] => m
  | r :: rest => processKeywordResults (processKeywordResult m rank r) (rank + 1) rest

/-- The RRF scoring step of combine_results (hybrid.py lines 243-255): the
    match score becomes the weighted contribution of its vector rank plus
    that of its keyword rank. -/
def applyRrf (config : HybridSearchConfig) (hm : HybridMatch) : HybridMatch :=
  { hm with
    rrf_score :=
      calculate_rrf_score hm.vector_rank config.vector_weight config.rrf_k +
      calculate_rrf_score hm.keyword_rank config.keyword_weight config.rrf_k }

/-- The descending comparison of the final sort of combine_results; Python
    sorted with reverse true is a stable descending sort, equal scores keep
    the map insertion order. -/
def rrfGe (a b : HybridMatch) : Prop := b.rrf_score ≤ a.rrf_score

instance : DecidableRel rrfGe := fun a b => by
  unfold rrfGe; infer_instance

/-- The scored match list of combine_results before sorting, in map
    insertion order. -/
def combineScored (vector_results : List VectorResultRow)
    (keyword_results : List KeywordResultRow)
    (config : HybridSearchConfig) : List HybridMatch :=
  ((processKeywordResults (processVectorResults [] 1 vector_results) 1
      keyword_results).map (fun p => p.2)).map (applyRrf config)

/-- Models combine_results (hybrid.py lines 126-264): both passes over a
    shared insertion-ordered map, RRF scoring, a stable descending sort by
    rrf_score, and truncation to the limit. -/
def combine_results (vector_results : List VectorResultRow)
    (keyword_results : List KeywordResultRow)
    (config : HybridSearchConfig) (limit : Nat := 10) : List HybridMatch :=
  (List.insertionSort rrfGe
    (combineScored vector_results keyword_results config)).take limit

/-- The fallback match list of the hybrid-search endpoint (main.py lines
    737-760): the vector rows truncated to the limit, enumerated from rank
    one, with no keyword rank, the vector score reused as the rrf score and
    the single source vector. -/
def fallbackMatches : List VectorResultRow → Nat → List HybridMatch
  | [], _ => []
  | r :: rest, rank =>
    { chunk_id := r.id, file_path := r.file_path, content := r.content,
      line_start := r.line_start, line_end := r.line_end,
      symbol_names := r.symbol_names,
      vector_score := r.score, vector_rank := some rank,
      keyword_score := 0, keyword_rank := none,
      rrf_score := r.score, sources := ["vector"] } ::
      fallbackMatches rest (rank + 1)

/-- Models step 3 of the hybrid_search endpoint (main.py lines 734-770):
    when the keyword result list is empty and fallback is enabled, fusion
    is bypassed and the truncated vector list is returned with
    fallback_used set; otherwise combine_results runs. Returns the
    fallback_used flag and the combined matches. -/
def hybrid_search_combine (vector_results : List VectorResultRow)
    (keyword_results : List KeywordResultRow)
    (config : HybridSearchConfig) (limit : Nat) : Bool × List HybridMatch :=
  if keyword_results.isEmpty && config.fallback_to_vector then
    (true, fallbackMatches (vector_results.take limit) 1)
  else
    (false, combine_results vector_results keyword_results config limit)

/-! ## C8: deterministic chunk ids (cocoindex_flow.py)

generate_chunk_id is uuid.uuid5(uuid.NAMESPACE_DNS, identity) over the
colon-joined identity string. uuid5 is the RFC 4122 name-based UUID: the
SHA-1 digest of the namespace bytes followed by the UTF-8 name bytes,
truncated to 16 bytes, with the version and variant bits forced. SHA-1 is
implemented here over byte lists as naturals, with 32-bit words reduced
modulo 2 to the 32. -/

/-- 2 to the 32, the word modulus of SHA-1. -/
def UINT32_MOD : Nat := 4294967296

/-- Left rotation of a 32-bit word. -/
def rotl32 (n x : Nat) : Nat :=
  (((x <<< n) % UINT32_MOD) ||| (x >>> (32 - n)))

/-- UTF-8 encoding of one character, as in Python str.encode. -/
def charUtf8 (c : Char) : List Nat :=
  let n := c.toNat
  if n < 128 then [n]
  else if n < 2048 then
    [192 ||| (n >>> 6), 128 ||| (n &&& 63)]
  else if n < 65536 then
    [224 ||| (n >>> 12), 128 ||| ((n >>> 6) &&& 63), 128 ||| (n &&& 63)]
  else
    [240 ||| (n >>> 18), 128 ||| ((n >>> 12) &&& 63),
     128 ||| ((n >>> 6) &&& 63), 128 ||| (n &&& 63)]

/-- UTF-8 bytes of a string. -/
def utf8Bytes (s : String) : List Nat :=
  s.toList.flatMap charUtf8

/-- Big-endian byte list of a natural, fixed width. -/
def natBytesBE (width n : Nat) : List Nat :=
  (List.range width).map (fun i => (n >>> (8 * (width - 1 - i))) % 256)

/-- SHA-1 padding: the 0x80 byte, zeros to 56 modulo 64, and the bit length
    as eight big-endian bytes. -/
def sha1Pad (msg : List Nat) : List Nat :=
  let len := msg.length
  let padZeros := (119 - len % 64) % 64
  msg ++ [128] ++ List.replicate padZeros 0 ++ natBytesBE 8 (len * 8)

/-- Big-endian 32-bit words of a byte list (length a multiple of 4). -/
def bytesToWordsBE : List Nat → List Nat
  | b0 :: b1 :: b2 :: b3 :: rest =>
    (((b0 * 256 + b1) * 256 + b2) * 256 + b3) :: bytesToWordsBE rest
  | _ => []

/-- The SHA-1 message-schedule extension: append fuel more words, each the
    single-bit rotation of the xor of the words 3, 8, 14 and 16 back. -/
def sha1Extend (w : List Nat) : Nat → List Nat
  | 0 => w
  | fuel + 1 =>
    let t := w.length
    let next := rotl32 1
      ((w.getD (t - 3) 0) ^^^ (w.getD (t - 8) 0) ^^^
       (w.getD (t - 14) 0) ^^^ (w.getD (t - 16) 0))
    sha1Extend (w ++ [next]) fuel

/-- The SHA-1 round function by round index. -/
def sha1F (t b c d : Nat) : Nat :=
  if t < 20 then (b &&& c) ||| ((b ^^^ 4294967295) &&& d)
  else if t < 40 then b ^^^ c ^^^ d
  else if t < 60 then (b &&& c) ||| (b &&& d) ||| (c &&& d)
  else b ^^^ c ^^^ d

/-- The SHA-1 round constant by round index. -/
def sha1K (t : Nat) : Nat :=
  if t < 20 then 1518500249
  else if t < 40 then 1859775393
  else if t < 60 then 2400959708
  else 3395469782

/-- The 80 SHA-1 rounds over the schedule, from round index t. -/
def sha1Rounds (t : Nat) (state : Nat × Nat × Nat × Nat × Nat) :
    List Nat → Nat × Nat × Nat × Nat × Nat
  | [] => state
  | wt :: rest =>
    let (a, b, c, d, e) := state
    let temp := (rotl32 5 a + sha1F t b c d + e + wt + sha1K t) % UINT32_MOD
    sha1Rounds (t + 1) (temp, a, rotl32 30 b, c, d) rest

/-- One SHA-1 block compression. -/
def sha1Compress (h : Nat × Nat × Nat × Nat × Nat) (block : List Nat) :
    Nat × Nat × Nat × Nat × Nat :=
  let w := sha1Extend (bytesToWordsBE block) 64
  let s := sha1Rounds 0 h w
  ((h.1 + s.1) % UINT32_MOD,
   (h.2.1 + s.2.1) % UINT32_MOD,
   (h.2.2.1 + s.2.2.1) % UINT32_MOD,
   (h.2.2.2.1 + s.2.2.2.1) % UINT32_MOD,
   (h.2.2.2.2 + s.2.2.2.2) % UINT32_MOD)

/-- Split a byte list into 64-byte blocks; the fuel is an upper bound on
    the block count, always instantiated with the list length. -/
def splitBlocks (fuel : Nat) (bytes : List Nat) : List (List Nat) :=
  match fuel, bytes with
  | _, [] => []
  | 0, _ => []
  | f + 1, bs => bs.take 64 :: splitBlocks f (bs.drop 64)

/-- SHA-1 of a byte list, as a 20-byte digest. -/
def sha1 (msg : List Nat) : List Nat :=
  let padded := sha1Pad msg
  let blocks := splitBlocks padded.length padded
  let h := blocks.foldl sha1Compress
    (1732584193, 4023233417, 2562383102, 271733878, 3285377520)
  natBytesBE 4 h.1 ++ natBytesBE 4 h.2.1 ++ natBytesBE 4 h.2.2.1 ++
    natBytesBE 4 h.2.2.2.1 ++ natBytesBE 4 h.2.2.2.2

/-- The bytes of uuid.NAMESPACE_DNS. -/
def NAMESPACE_DNS_BYTES : List Nat :=
  [107, 167, 184, 16, 157, 173, 17, 209, 128, 180, 0, 192, 79, 212, 48, 200]

/-- Lower-case hex digit. -/
def hexDigit (n : Nat) : Char :=
  if n < 10 then Char.ofNat (48 + n) else Char.ofNat (87 + n)

/-- Lower-case hex of a byte list. -/
def bytesHex (bs : List Nat) : List Char :=
  bs.flatMap (fun b => [hexDigit (b / 16), hexDigit (b % 16)])

/-- RFC 4122 version-5 UUID of a name under a namespace, in the canonical
    8-4-4-4-12 string form produced by str(uuid.uuid5(ns, name)): SHA-1 of
    namespace bytes plus UTF-8 name bytes, truncated to 16 bytes, version
    bits 0101 in byte 6 and variant bits 10 in byte 8. -/
def uuid5 (namespaceBytes : List Nat) (name : String) : String :=
  let digest := (sha1 (namespaceBytes ++ utf8Bytes name)).take 16
  let b6 := ((digest.getD 6 0) &&& 15) ||| 80
  let b8 := ((digest.getD 8 0) &&& 63) ||| 128
  let bytes := digest.take 6 ++ [b6] ++ [digest.getD 7 0] ++ [b8] ++ digest.drop 9
  String.mk
    (bytesHex (bytes.take 4) ++ ['-'] ++
     bytesHex ((bytes.drop 4).take 2) ++ ['-'] ++
     bytesHex ((bytes.drop 6).take 2) ++ ['-'] ++
     bytesHex ((bytes.drop 8).take 2) ++ ['-'] ++
     bytesHex (bytes.drop 10))

/-- Models generate_chunk_id (cocoindex_flow.py lines 201-206): the
    version-5 UUID, under the DNS namespace, of the colon-joined identity
    repo_id, branch, filename, location. -/
def generate_chunk_id (repo_id branch filename location : String) : String :=
  uuid5 NAMESPACE_DNS_BYTES
    (repo_id ++ ":" ++ branch ++ ":" ++ filename ++ ":" ++ location)

/-- Models the id assignment loop of ASTChunkCodeExecutor (cocoindex_flow.py
    lines 451-480): every chunk produced by the chunker receives
    generate_chunk_id of the flow repo id, the flow branch, the chunk
    filename and the chunk location. -/
def assignChunkIds (repoId branch : String) (chunks : List CodeChunk) :
    List String :=
  chunks.map (fun c => generate_chunk_id repoId branch c.filename c.location)

/-! ## C9: the file-level import graph (import_graph.py)

The import resolver _resolve_import_path consults the indexed file set and
candidate extension lists; the graph builder only uses its result, so the
builder is modelled over an arbitrary resolver function, making every
theorem below hold for all resolvers. The SQL rows feeding the builder are
pairs of a source file and its distinct aggregated import list. -/

/-- An edge of the file_imports table (the ImportEdge dataclass); the
    imported_symbols field is never filled by build_import_graph and is
    omitted. -/
structure ImportEdge where
  source_file : String
  target_file : String
  import_type : String
deriving DecidableEq, Repr

/-- The inner loop of build_import_graph over the import list of one file
    (import_graph.py lines 250-275): skip empty imports, resolve, skip
    self-targets and seen pairs, and classify dynamic imports by the
    substring tests of the source. Returns the extended seen set and the
    edges in emission order. -/
def buildEdgesForFile (resolve : String → String → Option String)
    (sourceFile : String) (seen : List (String × String)) :
    List String → List (String × String) × List ImportEdge
  | [] => (seen, [])
  | importPath :: rest =>
    if importPath == "" then buildEdgesForFile resolve sourceFile seen rest
    else
      match resolve importPath sourceFile with
      | some targetFile =>
        if targetFile != sourceFile && !seen.contains (sourceFile, targetFile) then
          let importType :=
            if strContains (String.mk (pyLower importPath.toList)) "dynamic" ||
                strContains importPath "import(" then "dynamic"
            else "static"
          let r := buildEdgesForFile resolve sourceFile
            (seen ++ [(sourceFile, targetFile)]) rest
          (r.1, { source_file := sourceFile, target_file := targetFile,
                  import_type := importType } :: r.2)
        else buildEdgesForFile resolve sourceFile seen rest
      | none => buildEdgesForFile resolve sourceFile seen rest

/-- The outer loop of build_import_graph over the per-file rows. -/
def buildEdgesRows (resolve : String → String → Option String)
    (seen : List (String × String)) :
    List (String × List String) → List ImportEdge
  | [] => []
  | (sourceFile, imports) :: rest =>
    let r := buildEdgesForFile resolve sourceFile seen imports
    r.2 ++ buildEdgesRows resolve r.1 rest

/-- Models build_import_graph (import_graph.py lines 226-277) over the
    aggregated per-file import rows and an arbitrary resolver. -/
def build_import_graph (resolve : String → String → Option String)
    (rows : List (String × List String)) : List ImportEdge :=
  buildEdgesRows resolve [] rows

/-- The ImportTree dataclass (import_graph.py lines 49-58). -/
structure ImportTree where
  target_file : String
  direct_imports : List String
  direct_importers : List String
  indirect_imports : List String
  indirect_importers : List String
deriving DecidableEq, Repr

/-- Models get_import_tree (import_graph.py lines 329-394) over the stored
    file_imports rows of one repo and branch. Level one follows edges from
    and into the file; level two runs only when the corresponding level-one
    list is non-empty and, as in the SQL, selects distinct files excluding
    the queried file and everything already at level one. -/
def get_import_tree (edges : List ImportEdge) (file_path : String)
    (max_depth : Nat := 2) : ImportTree :=
  let direct_imports :=
    (edges.filter (fun e => e.source_file == file_path)).map
      (fun e => e.target_file)
  let direct_importers :=
    (edges.filter (fun e => e.target_file == file_path)).map
      (fun e => e.source_file)
  let indirect_imports :=
    if 2 ≤ max_depth && !direct_imports.isEmpty then
      dedupKeepFirst []
        ((edges.filter (fun e =>
          direct_imports.contains e.source_file &&
          e.target_file != file_path &&
          !direct_imports.contains e.target_file)).map (fun e => e.target_file))
    else []
  let indirect_importers :=
    if 2 ≤ max_depth && !direct_importers.isEmpty then
      dedupKeepFirst []
        ((edges.filter (fun e =>
          direct_importers.contains e.target_file &&
          e.source_file != file_path &&
          !direct_importers.contains e.source_file)).map (fun e => e.source_file))
    else []
  { target_file := file_path,
    direct_imports := direct_imports,
    direct_importers := direct_importers,
    indirect_imports := indirect_imports,
    indirect_importers := indirect_importers }

/-! ## Reference inputs for the refinement statement of the boost claim -/

/-- The per-symbol exact test of calculate_exact_match_boost: lower-cased
    stripped query against lower-cased symbol. -/
def boostSpecExact (query s : String) : Bool :=
  pyTrim (pyLower query.toList) == pyLower s.toList

/-- The per-symbol variation test of calculate_exact_match_boost: the
    variation sets of query and symbol intersect. -/
def boostSpecVariant (query s : String) : Bool :=
  (normalize_identifier query.toList).any
    (fun v => (normalize_identifier s.toList).contains v)

/-- Reference definition for the amended exact-match-boost claim, written
    from the amended specification words: the first symbol in list order
    that matches at all decides the boost, the full multiplier when that
    symbol matches exactly and multiplier times 0.7 when it matches only
    through variations; 1.0 when no symbol matches. -/
def boostSpecFirstMatch (query : String) (symbolNames : List String)
    (mult : Rat) : Rat :=
  match symbolNames.find? (fun s => boostSpecExact query s || boostSpecVariant query s) with
  | some s => if boostSpecExact query s then mult else mult * (7/10)
  | none => 1

/-! ## Concrete evaluation inputs -/

/-- A database state with one legacy row, one chunks row and one
    relationship, all for repo abcd on branch main. -/
def fullIndexExampleDb : DbState :=
  { code_embeddings := [{ repo_id := "abcd", branch := "main",
                          filename := "src/a.py", location := "1-10" }],
    chunks := [{ id := "c1", repo_id := "abcd", branch := "main",
                 file_path := "src/a.py" }],
    relationships := [{ source_chunk_id := "c1", target_chunk_id := "c1",
                        relationship_type := "references" }] }

/-- A chunk that imports helperFn and mentions it with attribute syntax
    (the dot pattern) but never with a call parenthesis. -/
def refChunkA : ChunkInfo :=
  { chunk_id := "chunkA", filename := "a.py",
    content := "x = helperFn.run\n",
    symbol_names := [], imports := ["helperFn"], exports := [] }

/-- The chunk defining helperFn. -/
def refChunkB : ChunkInfo :=
  { chunk_id := "chunkB", filename := "b.py",
    content := "def helperFn():\n    return 1\n",
    symbol_names := ["helperFn"], imports := [], exports := [] }

/-- A vector result with chunk id b at rank one. -/
def rrfTieVectorRow : VectorResultRow :=
  { id := "b", file_path := "b.py", content := "bb",
    line_start := 1, line_end := 2, symbol_names := [], score := 9/10 }

/-- A keyword result with chunk id a at rank one. -/
def rrfTieKeywordRow : KeywordResultRow :=
  { id := "a", file_path := "a.py", content := "aa",
    line_start := 1, line_end := 2, symbol_names := [], final_score := 5 }

/-- Equal input weights, so both chunks get the same fused score. -/
def rrfTieConfig : HybridSearchConfig := mkHybridSearchConfig 1 1

/-- A parse-tree node for a 54-line method on rows 4 to 57. -/
def cexMethodNode : RawNode :=
  .mk false false true false (some "bigMethod") 4 57 "def bigMethod..." "" .nil

/-- A class node on rows 0 to 59 containing the big method. -/
def cexClassNode : RawNode :=
  .mk false true false false (some "Widget") 0 59 "class Widget..." ""
    (.cons cexMethodNode .nil)

/-- The parse-tree root of the 60-line class file. -/
def cexClassRoot : RawNode :=
  .mk false false false false none 0 59 "" "" (.cons cexClassNode .nil)

/-- Sixty non-blank lines. -/
def cexClassLines : List String := List.replicate 60 "x"

/-- An 80-line nested function on rows 1 to 80 inside another function. -/
def cexInnerFn : RawNode :=
  .mk true false false false (some "inner") 1 80 "def inner..." "" .nil

/-- The enclosing 100-line function on rows 0 to 99. -/
def cexOuterFn : RawNode :=
  .mk true false false false (some "outer") 0 99 "def outer..." ""
    (.cons cexInnerFn .nil)

/-- The parse-tree root of the nested-function file. -/
def cexFnRoot : RawNode :=
  .mk false false false false none 0 99 "" "" (.cons cexOuterFn .nil)

/-- One hundred non-blank lines. -/
def cexFnLines : List String := List.replicate 100 "x"

/-- Witness tree for the amended chunker coverage claim: one function on
    rows 0 and 1 of a four-line file whose last line is module-level
    code. -/
def covWitnessFn : RawNode :=
  .mk true false false false (some "f") 0 1 "def f():\n  pass" "" .nil

/-- The root of the coverage witness file. -/
def covWitnessRoot : RawNode :=
  .mk false false false false none 0 3 "" "" (.cons covWitnessFn .nil)

/-- The lines of the coverage witness file; line 3 is blank, line 4 is
    module-level code. -/
def covWitnessLines : List String := ["def f():", "  pass", "", "x = 1"]

/-- Witness tree for the amended nested-separation claim: a 54-line method
    on rows 4 to 57 under a class on rows 0 to 59. -/
def sepWitnessMethod : RawNode :=
  .mk false false true false (some "work") 4 57 "def work..." "" .nil

/-- The class node of the separation witness. -/
def sepWitnessClass : RawNode :=
  .mk false true false false (some "Svc") 0 59 "class Svc..." ""
    (.cons sepWitnessMethod .nil)

/-- The root of the separation witness file. -/
def sepWitnessRoot : RawNode :=
  .mk false false false false none 0 59 "" "" (.cons sepWitnessClass .nil)

/-- Sixty non-blank lines for the separation witness. -/
def sepWitnessLines : List String := List.replicate 60 "x"

/-- The method unit the extraction produces for the separation witness. -/
def sepWitnessMethodUnit : ASTUnit :=
  { node_type := "method", name := some "work", start_line := 5,
    end_line := 58, content := "def work...", children := [],
    leading_comments := "" }

/-- The class unit the extraction produces for the separation witness. -/
def sepWitnessClassUnit : ASTUnit :=
  { node_type := "class", name := some "Svc", start_line := 1,
    end_line := 60, content := "class Svc...", children := [sepWitnessMethodUnit],
    leading_comments := "" }

/-- Two chunks with the same filename and location but different content,
    symbols and line bounds: first variant. -/
def idWitnessChunkA : CodeChunk :=
  { filename := "src/a.py", location := "1-10", code := "def f(): return 1",
    start_line := 1, end_line := 10, chunk_type := "function",
    symbol_name := some "f", symbol_names := ["f"], imports := [],
    exports := [] }

/-- Two chunks with the same filename and location but different content,
    symbols and line bounds: second variant. -/
def idWitnessChunkB : CodeChunk :=
  { filename := "src/a.py", location := "1-10", code := "def g(): return 2",
    start_line := 1, end_line := 10, chunk_type := "function",
    symbol_name := some "g", symbol_names := ["g"], imports := [],
    exports := [] }

/-- Line l of the file, 1-indexed, exists and is not blank (after the
    Python strip test). -/
def nonBlankLine (lines : List String) (l : Int) : Bool :=
  match lines[(l - 1).toNat]? with
  | some s => !isBlankStr s
  | none => false

instance : IsTotal HybridMatch rrfGe :=
  ⟨fun a b => le_total b.rrf_score a.rrf_score⟩

instance : IsTrans HybridMatch rrfGe :=
  ⟨fun _ _ _ hab hbc => le_trans hbc hab⟩

set_option maxRecDepth 100000

/-! ## Helper lemmas -/

/-- Membership survives the keep-first deduplication. -/
theorem mem_of_mem_dedupKeepFirst [BEq α] {seen : List α} {l : List α} {x : α}
    (h : x ∈ dedupKeepFirst seen l) : x ∈ l := by
  induction l generalizing seen with
  | nil => simp only [dedupKeepFirst] at h; exact absurd h (List.not_mem_nil x)
  | cons y ys ih =>
    rw [dedupKeepFirst] at h
    by_cases hs : seen.contains y = true
    · simp only [hs, if_pos] at h
      exact List.mem_cons_of_mem _ (ih h)
    · simp only [hs, if_neg, Bool.false_eq_true, not_false_iff] at h
      rcases List.mem_cons.mp h with h1 | h2
      · exact h1 ▸ List.mem_cons_self _ _
      · exact List.mem_cons_of_mem _ (ih h2)

/-- Every edge emitted by the per-file loop of the graph builder leaves the
    source file, and its source is the given file. -/
theorem buildEdgesForFile_no_self (resolve : String → String → Option String)
    (sourceFile : String) (seen : List (String × String))
    (imports : List String) :
    ∀ e ∈ (buildEdgesForFile resolve sourceFile seen imports).2,
      e.source_file = sourceFile ∧ e.target_file ≠ e.source_file := by
  induction imports generalizing seen with
  | nil => intro e he; simp [buildEdgesForFile] at he
  | cons imp rest ih =>
    intro e he
    rw [buildEdgesForFile] at he
    by_cases h0 : (imp == "") = true
    · rw [if_pos h0] at he; exact ih _ e he
    · rw [if_neg h0] at he
      cases hres : resolve imp sourceFile with
      | none => rw [hres] at he; exact ih _ e he
      | some target =>
        simp only [hres] at he
        by_cases hok : (target != sourceFile &&
            !seen.contains (sourceFile, target)) = true
        · rw [if_pos hok] at he
          rcases List.mem_cons.mp he with h1 | h2
          · subst h1
            refine ⟨rfl, ?_⟩
            have hok2 : (target != sourceFile) = true := by
              simp only [Bool.and_eq_true] at hok
              exact hok.1
            simpa [bne_iff_ne] using hok2
          · exact ih _ e h2
        · rw [if_neg hok] at he; exact ih _ e he

/-- Every edge of the built import graph leaves its source file. -/
theorem build_import_graph_no_self (resolve : String → String → Option String)
    (rows : List (String × List String)) :
    ∀ e ∈ build_import_graph resolve rows, e.target_file ≠ e.source_file := by
  suffices h : ∀ seen, ∀ e ∈ buildEdgesRows resolve seen rows,
      e.target_file ≠ e.source_file by
    exact h []
  induction rows with
  | nil => intro seen e he; simp [buildEdgesRows] at he
  | cons row rest ih =>
    intro seen e he
    rw [buildEdgesRows] at he
    rcases List.mem_append.mp he with h1 | h2
    · exact (buildEdgesForFile_no_self resolve row.1 seen row.2 e h1).2
    · exact ih _ e h2

/-! ## Claim theorems -/

/-- C1: the claim states that before any new chunks are written in full
indexing mode, every chunk stored for the repo and branch is deleted with
its relationships, so that no chunk row for that repo and branch remains.
Evaluating the full-mode delete step at the failing input shows otherwise:
delete_existing_index clears only the legacy code_embeddings rows, while
the chunks rows for the same repo and branch, and the relationships
anchored to them, survive the delete step untouched. -/
theorem full_mode_delete_leaves_chunk_rows :
    (delete_existing_index fullIndexExampleDb "abcd" "main").code_embeddings = [] ∧
    (delete_existing_index fullIndexExampleDb "abcd" "main").chunks =
      fullIndexExampleDb.chunks ∧
    (delete_existing_index fullIndexExampleDb "abcd" "main").relationships =
      fullIndexExampleDb.relationships ∧
    ((delete_existing_index fullIndexExampleDb "abcd" "main").chunks.any
      (fun c => c.repo_id == "abcd" && c.branch == "main")) = true := by
  decide

/-- C3: the claim states that a references edge is never emitted between
two chunks already connected by an imports edge in the same direction.
Evaluating extract_relationships at the failing input refutes this: chunk
A imports helperFn from chunk B, producing the imports edge A to B, and
because the content of A matches helperFn with the dot pattern, the
mis-parenthesised source condition emits the references edge A to B as
well (the existing-imports guard only binds to the call-parenthesis
pattern). -/
theorem references_edge_despite_imports_edge :
    extract_relationships [refChunkA, refChunkB] =
      [{ source_chunk_id := "chunkA", target_chunk_id := "chunkB",
         relationship_type := "imports", metadataSymbol := "helperFn" },
       { source_chunk_id := "chunkA", target_chunk_id := "chunkB",
         relationship_type := "references", metadataSymbol := "helperFn" }] := by
  decide

/-- C2 counterexample: a 60-line class file whose single method spans 54
lines. The method passes the nested-separation threshold, so the chunker
emits both the class chunk covering lines 1 to 60 and the method chunk
covering lines 5 to 58: line 10 is non-blank and lies in the range of two
chunks, and the two chunks are both semantic-unit chunks with overlapping
ranges, refuting exactly-once coverage and semantic-unit disjointness. -/
theorem chunker_line_covered_twice :
    ((chunk_with_ast cexClassRoot cexClassLines "widget.py" [] []).map
      (fun c => (c.chunk_type, c.start_line, c.end_line)) =
      [("class", 1, 60), ("method", 5, 58)]) ∧
    (((chunk_with_ast cexClassRoot cexClassLines "widget.py" [] []).filter
      (fun c => decide (c.start_line ≤ 10) && decide ((10 : Int) ≤ c.end_line))).length = 2) ∧
    isBlankStr "x" = false := by
  decide

/-- C4 counterexample: the symbol list contains a case-insensitive exact
match of the query getUser, yet the boost is 3 times 0.7 rather than 3,
because the earlier symbol get_user matches first through its identifier
variants and the scan stops at the first matching symbol. -/
theorem exact_boost_overridden_by_earlier_variant :
    (["get_user", "getUser"].any
      (fun s => pyLower s.toList == pyLower "getUser".toList)) = true ∧
    calculate_exact_match_boost "getUser" ["get_user", "getUser"] 3 = 3 * (7/10) ∧
    (3 : Rat) * (7/10) ≠ 3 := by
  refine ⟨by decide, by decide, by decide⟩

/-- C5 counterexample: with equal input weights, a chunk b ranked first by
vector search only and a chunk a ranked first by keyword search only
receive the same fused score 1/122, yet combine_results returns b before
a: equal-score ties keep map insertion order (the vector pass precedes the
keyword pass), not chunk id ascending order, although a is the smaller
id. -/
theorem rrf_tie_not_ordered_by_chunk_id :
    ((combine_results [rrfTieVectorRow] [rrfTieKeywordRow] rrfTieConfig 10).map
      (fun m => m.chunk_id) = ["b", "a"]) ∧
    ((combine_results [rrfTieVectorRow] [rrfTieKeywordRow] rrfTieConfig 10).map
      (fun m => m.rrf_score) = [1/122, 1/122]) ∧
    "a".toList < "b".toList := by
  refine ⟨by decide, by decide, by decide⟩

/-- C7 counterexample: an outer 100-line function contains a nested 80-line
function, well above the 50-line threshold, yet the chunker emits only the
outer function chunk: extract_semantic_units records children only for
class units, so a nested function inside a function is never emitted as a
standalone chunk no matter its size. -/
theorem nested_function_in_function_never_separated :
    ((chunk_with_ast cexFnRoot cexFnLines "f.py" [] []).map
      (fun c => (c.chunk_type, c.start_line, c.end_line)) =
      [("function", 1, 100)]) ∧
    ((extract_semantic_units cexInnerFn false).map (fun u => u.line_count) = [80]) ∧
    ((extract_semantic_units cexFnRoot false).map (fun u => u.children.length) = [0]) ∧
    NESTED_FUNCTION_SIZE_THRESHOLD ≤ (80 : Int) := by
  refine ⟨by decide, by decide, by decide, by decide⟩

/-- C10: the call-graph endpoint raises a client-side 400 error exactly
when the direction parameter is outside callers, callees, both, or when
repo_url is missing; an out-of-range depth never errors, because for every
integer depth the request proceeds with the clamped traversal depth
max 1 (min depth 5). -/
theorem callgraph_badrequest_iff_invalid_input
    (direction : String) (repoUrl : Option String) (depth : Int) :
    ((get_callgraph_validate direction repoUrl depth).isBadRequest = true ↔
      (¬(direction = "callers" ∨ direction = "callees" ∨ direction = "both") ∨
        repoUrl.getD "" = "")) ∧
    (∀ d, get_callgraph_validate direction repoUrl depth =
        .proceed d → d = max 1 (min depth 5)) := by
  unfold get_callgraph_validate
  constructor
  · by_cases h1 : (direction == "callers" || direction == "callees" ||
        direction == "both") = true
    · rw [if_neg (by simp [h1])]
      by_cases h2 : (repoUrl.getD "" == "") = true
      · rw [if_pos h2]
        simp only [CallgraphCheck.isBadRequest, true_iff]
        exact Or.inr (by simpa using h2)
      · rw [if_neg h2]
        simp only [CallgraphCheck.isBadRequest, Bool.false_eq_true, false_iff]
        push_neg
        constructor
        · simp only [Bool.or_eq_true, beq_iff_eq] at h1
          tauto
        · simpa using h2
    · rw [if_pos (by simpa using h1)]
      simp only [CallgraphCheck.isBadRequest, true_iff]
      refine Or.inl ?_
      simp only [Bool.or_eq_true, beq_iff_eq] at h1
      tauto
  · intro d hd
    by_cases h1 : (direction == "callers" || direction == "callees" ||
        direction == "both") = true
    · rw [if_neg (by simp [h1])] at hd
      by_cases h2 : (repoUrl.getD "" == "") = true
      · rw [if_pos h2] at hd; exact absurd hd (by simp)
      · rw [if_neg h2] at hd
        have := CallgraphCheck.proceed.inj hd
        omega
    · rw [if_pos (by simpa using h1)] at hd
      exact absurd hd (by simp)

/-- Witness for the C10 theorem at concrete inputs: an unknown direction is
a 400, and a depth of 99 proceeds with the clamped depth 5. -/
theorem callgraph_badrequest_iff_invalid_input_witness :
    (get_callgraph_validate "up" (some "https://r") 2).isBadRequest = true ∧
    (5 : Int) = max 1 (min (99 : Int) 5) :=
  ⟨(callgraph_badrequest_iff_invalid_input "up" (some "https://r") 2).1.mpr
      (Or.inl (by decide)),
   (callgraph_badrequest_iff_invalid_input "callers" (some "https://r") 99).2 5
      (by decide)⟩

/-- The boost loop equals the first-match reference on every symbol list. -/
theorem boostLoop_eq_firstMatch (query : String) (mult : Rat) :
    ∀ symbols : List String,
      boostLoop (pyTrim (pyLower query.toList))
          (normalize_identifier query.toList) mult symbols =
        (match symbols.find?
            (fun s => boostSpecExact query s || boostSpecVariant query s) with
         | some s => if boostSpecExact query s then mult else mult * (7/10)
         | none => 1) := by
  intro symbols
  induction symbols with
  | nil => simp [boostLoop]
  | cons s rest ih =>
    rw [boostLoop, List.find?]
    by_cases hex : (pyTrim (pyLower query.toList) == pyLower s.toList) = true
    · have hspec : boostSpecExact query s = true := hex
      simp only [hspec, Bool.true_or]
      rw [if_pos hex]
      simp
    · have hspec : boostSpecExact query s = false := eq_false_of_ne_true hex
      simp only [hspec, Bool.false_or]
      by_cases hvar : ((normalize_identifier query.toList).any
          (fun v => (normalize_identifier s.toList).contains v)) = true
      · have hvspec : boostSpecVariant query s = true := hvar
        simp only [hvspec]
        rw [if_neg hex, if_pos hvar]
        simp [hspec]
      · have hvspec : boostSpecVariant query s = false := eq_false_of_ne_true hvar
        simp only [hvspec]
        rw [if_neg hex, if_neg hvar]
        exact ih

/-- C4 amended: the exact-match boost is decided by the first symbol in
symbol_names order that matches at all. It equals the multiplier when that
first matching symbol is a case-insensitive exact match of the stripped
query, multiplier times 0.7 when that symbol matches only through
camelCase and snake_case variants, and 1.0 when no symbol matches. An
exact match occurring after an earlier variant-only match does not raise
the boost. -/
theorem exact_match_boost_first_match_decides
    (query : String) (symbolNames : List String) (mult : Rat) :
    calculate_exact_match_boost query symbolNames mult =
      boostSpecFirstMatch query symbolNames mult := by
  unfold calculate_exact_match_boost boostSpecFirstMatch
  cases symbolNames with
  | nil => simp
  | cons s rest =>
    simp only [List.isEmpty_cons, Bool.false_eq_true, if_false]
    exact boostLoop_eq_firstMatch query mult (s :: rest)

/-- Witness for the C4 amended theorem at a concrete input: on the
counterexample symbol list the first matching symbol is variant-only, so
both sides give 3 times 0.7. -/
theorem exact_match_boost_first_match_decides_witness :
    calculate_exact_match_boost "getUser" ["get_user", "getUser"] 3 =
      boostSpecFirstMatch "getUser" ["get_user", "getUser"] 3 :=
  exact_match_boost_first_match_decides "getUser" ["get_user", "getUser"] 3

/-- C8: every chunk id assigned by the indexing executor is
generate_chunk_id of the repo id, branch, chunk filename and chunk
location, a pure function of those four values only: two chunk lists that
agree on filename and location positionwise receive identical id lists,
whatever their content, symbols or line bounds. Re-running a full index on
unchanged sources re-chunks the same files to the same locations, hence
yields identical chunk ids. -/
theorem chunk_ids_depend_only_on_identity
    (repoId branch : String) (chunks1 chunks2 : List CodeChunk)
    (h : chunks1.map (fun c => (c.filename, c.location)) =
         chunks2.map (fun c => (c.filename, c.location))) :
    assignChunkIds repoId branch chunks1 = assignChunkIds repoId branch chunks2 := by
  induction chunks1 generalizing chunks2 with
  | nil =>
    cases chunks2 with
    | nil => rfl
    | cons c cs => simp at h
  | cons c1 cs1 ih =>
    cases chunks2 with
    | nil => simp at h
    | cons c2 cs2 =>
      simp only [List.map_cons, List.cons.injEq, Prod.mk.injEq] at h
      obtain ⟨⟨hf, hl⟩, ht⟩ := h
      simp only [assignChunkIds, List.map_cons, List.cons.injEq]
      exact ⟨by rw [hf, hl], ih cs2 ht⟩

/-- Witness for the C8 theorem: two one-chunk lists whose chunks differ in
content, symbol name and symbols but share filename and location receive
the same ids. -/
theorem chunk_ids_depend_only_on_identity_witness :
    assignChunkIds "abcd" "main" [idWitnessChunkA] =
      assignChunkIds "abcd" "main" [idWitnessChunkB] :=
  chunk_ids_depend_only_on_identity "abcd" "main" [idWitnessChunkA]
    [idWitnessChunkB] (by decide)

/-- The chunk ids of the fallback match list are the vector row ids in
order, from any starting rank. -/
theorem fallbackMatches_ids (rows : List VectorResultRow) :
    ∀ rank, (fallbackMatches rows rank).map (fun m => m.chunk_id) =
      rows.map (fun r => r.id) := by
  induction rows with
  | nil => intro rank; rfl
  | cons r rest ih =>
    intro rank
    simp only [fallbackMatches, List.map_cons, List.cons.injEq]
    exact ⟨by trivial, ih (rank + 1)⟩

/-- Every fallback match has no keyword rank and the single source
vector. -/
theorem fallbackMatches_fields (rows : List VectorResultRow) :
    ∀ rank, ∀ m ∈ fallbackMatches rows rank,
      m.keyword_rank = none ∧ m.sources = ["vector"] := by
  induction rows with
  | nil => intro rank m hm; simp [fallbackMatches] at hm
  | cons r rest ih =>
    intro rank m hm
    rw [fallbackMatches] at hm
    rcases List.mem_cons.mp hm with h1 | h2
    · subst h1; exact ⟨rfl, rfl⟩
    · exact ih (rank + 1) m h2

/-- C6: when the keyword search returns zero results and fallback is
enabled, the hybrid-search endpoint bypasses fusion: fallback_used is
true, the returned matches are exactly the vector ranking truncated to the
limit, and every returned entry has keyword_rank none and sources equal to
the single element vector. -/
theorem hybrid_fallback_returns_vector_ranking
    (vector_results : List VectorResultRow) (config : HybridSearchConfig)
    (limit : Nat) (hfb : config.fallback_to_vector = true) :
    (hybrid_search_combine vector_results [] config limit).1 = true ∧
    ((hybrid_search_combine vector_results [] config limit).2.map
        (fun m => m.chunk_id) =
      (vector_results.take limit).map (fun r => r.id)) ∧
    (∀ m ∈ (hybrid_search_combine vector_results [] config limit).2,
      m.keyword_rank = none ∧ m.sources = ["vector"]) := by
  have hcond : (List.isEmpty ([] : List KeywordResultRow) &&
      config.fallback_to_vector) = true := by
    simp [hfb]
  unfold hybrid_search_combine
  rw [if_pos hcond]
  exact ⟨rfl, fallbackMatches_ids _ 1, fallbackMatches_fields _ 1⟩

/-- Witness for the C6 theorem: one vector result, empty keyword results,
the default configuration. -/
theorem hybrid_fallback_returns_vector_ranking_witness :
    ((hybrid_search_combine [rrfTieVectorRow] []
        (mkHybridSearchConfig (6/10) (4/10)) 10).1 = true) ∧
    ((hybrid_search_combine [rrfTieVectorRow] []
        (mkHybridSearchConfig (6/10) (4/10)) 10).2.map (fun m => m.chunk_id) =
      [( "b" : String)]) ∧
    (∀ m ∈ (hybrid_search_combine [rrfTieVectorRow] []
        (mkHybridSearchConfig (6/10) (4/10)) 10).2,
      m.keyword_rank = none ∧ m.sources = ["vector"]) := by
  have h := hybrid_fallback_returns_vector_ranking [rrfTieVectorRow]
    (mkHybridSearchConfig (6/10) (4/10)) 10 (by decide)
  exact ⟨h.1, by rw [h.2.1]; decide, h.2.2⟩

/-- Membership in the direct imports of the tree comes from an edge out of
the queried file. -/
theorem mem_direct_imports_of_tree {edges : List ImportEdge} {F x : String}
    {d : Nat} (hx : x ∈ (get_import_tree edges F d).direct_imports) :
    ∃ e ∈ edges, e.source_file = F ∧ e.target_file = x := by
  simp only [get_import_tree, List.mem_map, List.mem_filter] at hx
  obtain ⟨e, ⟨he, hsrc⟩, htgt⟩ := hx
  exact ⟨e, he, by simpa using hsrc, htgt⟩

/-- Membership in the direct importers of the tree comes from an edge into
the queried file. -/
theorem mem_direct_importers_of_tree {edges : List ImportEdge} {F x : String}
    {d : Nat} (hx : x ∈ (get_import_tree edges F d).direct_importers) :
    ∃ e ∈ edges, e.target_file = F ∧ e.source_file = x := by
  simp only [get_import_tree, List.mem_map, List.mem_filter] at hx
  obtain ⟨e, ⟨he, htgt⟩, hsrc⟩ := hx
  exact ⟨e, he, by simpa using htgt, hsrc⟩

/-- Membership in the indirect imports of the tree comes from an edge whose
target is the member and explicitly differs from the queried file. -/
theorem mem_indirect_imports_of_tree {edges : List ImportEdge} {F x : String}
    {d : Nat} (hx : x ∈ (get_import_tree edges F d).indirect_imports) :
    ∃ e ∈ edges, e.target_file = x ∧ e.target_file ≠ F := by
  simp only [get_import_tree] at hx
  split at hx
  · have hx2 := mem_of_mem_dedupKeepFirst hx
    simp only [List.mem_map, List.mem_filter] at hx2
    obtain ⟨e, ⟨he, hcond⟩, htgt⟩ := hx2
    simp only [Bool.and_eq_true, bne_iff_ne, ne_eq] at hcond
    exact ⟨e, he, htgt, hcond.1.2⟩
  · exact absurd hx (List.not_mem_nil x)

/-- Membership in the indirect importers of the tree comes from an edge
whose source is the member and explicitly differs from the queried file. -/
theorem mem_indirect_importers_of_tree {edges : List ImportEdge} {F x : String}
    {d : Nat} (hx : x ∈ (get_import_tree edges F d).indirect_importers) :
    ∃ e ∈ edges, e.source_file = x ∧ e.source_file ≠ F := by
  simp only [get_import_tree] at hx
  split at hx
  · have hx2 := mem_of_mem_dedupKeepFirst hx
    simp only [List.mem_map, List.mem_filter] at hx2
    obtain ⟨e, ⟨he, hcond⟩, hsrc⟩ := hx2
    simp only [Bool.and_eq_true, bne_iff_ne, ne_eq] at hcond
    exact ⟨e, he, hsrc, hcond.1.2⟩
  · exact absurd hx (List.not_mem_nil x)

/-- C9: for every import-tree query over a graph produced by the builder
of the import graph, under any import resolver, the queried file appears
in none of the four returned lists: not among the direct imports or the
direct importers, because the builder never emits a self edge, and not
among the indirect lists, because their queries exclude the queried file
explicitly. -/
theorem import_tree_never_contains_queried_file
    (resolve : String → String → Option String)
    (rows : List (String × List String)) (F : String) (maxDepth : Nat) :
    ((get_import_tree (build_import_graph resolve rows) F maxDepth).direct_imports.contains F ||
     (get_import_tree (build_import_graph resolve rows) F maxDepth).direct_importers.contains F ||
     (get_import_tree (build_import_graph resolve rows) F maxDepth).indirect_imports.contains F ||
     (get_import_tree (build_import_graph resolve rows) F maxDepth).indirect_importers.contains F) = false := by
  have hns : ∀ e ∈ build_import_graph resolve rows,
      e.target_file ≠ e.source_file := build_import_graph_no_self resolve rows
  have h1 : F ∉ (get_import_tree (build_import_graph resolve rows) F maxDepth).direct_imports := by
    intro hmem
    obtain ⟨e, he, hsrc, htgt⟩ := mem_direct_imports_of_tree hmem
    exact hns e he (htgt.trans hsrc.symm)
  have h2 : F ∉ (get_import_tree (build_import_graph resolve rows) F maxDepth).direct_importers := by
    intro hmem
    obtain ⟨e, he, htgt, hsrc⟩ := mem_direct_importers_of_tree hmem
    exact hns e he (htgt.trans hsrc.symm)
  have h3 : F ∉ (get_import_tree (build_import_graph resolve rows) F maxDepth).indirect_imports := by
    intro hmem
    obtain ⟨e, he, htgt, hne⟩ := mem_indirect_imports_of_tree hmem
    exact hne htgt
  have h4 : F ∉ (get_import_tree (build_import_graph resolve rows) F maxDepth).indirect_importers := by
    intro hmem
    obtain ⟨e, he, hsrc, hne⟩ := mem_indirect_importers_of_tree hmem
    exact hne hsrc
  simp only [Bool.or_eq_false_iff]
  refine ⟨⟨⟨?_, ?_⟩, ?_⟩, ?_⟩
  · exact Bool.eq_false_iff.mpr (fun hc => h1 (List.elem_iff.mp hc))
  · exact Bool.eq_false_iff.mpr (fun hc => h2 (List.elem_iff.mp hc))
  · exact Bool.eq_false_iff.mpr (fun hc => h3 (List.elem_iff.mp hc))
  · exact Bool.eq_false_iff.mpr (fun hc => h4 (List.elem_iff.mp hc))

/-- Witness for the C9 theorem at a concrete resolver and row set: a file
that imports another and is imported back still never sees itself in its
own tree. -/
theorem import_tree_never_contains_queried_file_witness :
    ((get_import_tree (build_import_graph
        (fun imp _ => some imp)
        [("a.py", ["b.py"]), ("b.py", ["a.py"])]) "a.py" 2).direct_imports.contains "a.py" ||
     (get_import_tree (build_import_graph
        (fun imp _ => some imp)
        [("a.py", ["b.py"]), ("b.py", ["a.py"])]) "a.py" 2).direct_importers.contains "a.py" ||
     (get_import_tree (build_import_graph
        (fun imp _ => some imp)
        [("a.py", ["b.py"]), ("b.py", ["a.py"])]) "a.py" 2).indirect_imports.contains "a.py" ||
     (get_import_tree (build_import_graph
        (fun imp _ => some imp)
        [("a.py", ["b.py"]), ("b.py", ["a.py"])]) "a.py" 2).indirect_importers.contains "a.py") = false :=
  import_tree_never_contains_queried_file (fun imp _ => some imp)
    [("a.py", ["b.py"]), ("b.py", ["a.py"])] "a.py" 2

/-- C5 amended: combine_results gives every merged chunk the score
rrf = w_v / (k + rank_v) + w_k / (k + rank_k) with a missing rank
contributing zero and k the configured constant (default 60); the
constructor normalizes the input weights to sum to one whenever their sum
is positive; the output is sorted by rrf descending and truncated to the
limit; and equal-rrf ties keep the merged-map insertion order, all
vector-pass entries in vector-rank order followed by keyword-only entries
in keyword-rank order, because the sort is stable. -/
theorem combine_results_scores_sorted_truncated
    (vector_results : List VectorResultRow)
    (keyword_results : List KeywordResultRow)
    (config : HybridSearchConfig) (limit : Nat) :
    (∀ m ∈ combine_results vector_results keyword_results config limit,
      m.rrf_score =
        calculate_rrf_score m.vector_rank config.vector_weight config.rrf_k +
        calculate_rrf_score m.keyword_rank config.keyword_weight config.rrf_k) ∧
    (combine_results vector_results keyword_results config limit).Sorted rrfGe ∧
    (combine_results vector_results keyword_results config limit).length ≤ limit ∧
    (∀ a b, List.Sublist [a, b]
        (combineScored vector_results keyword_results config) →
      b.rrf_score ≤ a.rrf_score →
      List.Sublist [a, b] (List.insertionSort rrfGe
        (combineScored vector_results keyword_results config))) ∧
    (∀ vw kw k fb, 0 < vw + kw →
      (mkHybridSearchConfig vw kw k fb).vector_weight +
        (mkHybridSearchConfig vw kw k fb).keyword_weight = 1) := by
  refine ⟨?_, ?_, ?_, ?_, ?_⟩
  · intro m hm
    have hm2 : m ∈ List.insertionSort rrfGe
        (combineScored vector_results keyword_results config) :=
      List.take_subset _ _ hm
    have hm3 : m ∈ combineScored vector_results keyword_results config :=
      (List.mem_insertionSort rrfGe).mp hm2
    unfold combineScored at hm3
    obtain ⟨x, _, hmx⟩ := List.mem_map.mp hm3
    subst hmx
    rfl
  · have hsorted : (List.insertionSort rrfGe
        (combineScored vector_results keyword_results config)).Sorted rrfGe :=
      List.sorted_insertionSort rrfGe _
    exact hsorted.sublist (List.take_sublist _ _)
  · rw [combine_results, List.length_take]
    exact min_le_left _ _
  · intro a b hab hle
    exact List.pair_sublist_insertionSort hle hab
  · intro vw kw k fb hpos
    unfold mkHybridSearchConfig
    rw [if_pos hpos]
    rw [div_add_div_same, div_self (ne_of_gt hpos)]

/-- Witness for the C5 amended theorem: concrete weight normalization and a
concrete bounded, formula-scored output. -/
theorem combine_results_scores_sorted_truncated_witness :
    ((mkHybridSearchConfig (6/10) (4/10) RRF_K true).vector_weight +
      (mkHybridSearchConfig (6/10) (4/10) RRF_K true).keyword_weight = 1) ∧
    (combine_results [rrfTieVectorRow] [rrfTieKeywordRow] rrfTieConfig 10).length ≤ 10 :=
  ⟨(combine_results_scores_sorted_truncated [] [] rrfTieConfig 0).2.2.2.2
      (6/10) (4/10) RRF_K true (by norm_num),
   (combine_results_scores_sorted_truncated [rrfTieVectorRow] [rrfTieKeywordRow]
      rrfTieConfig 10).2.2.1⟩

mutual
/-- Extraction records children only on class units. -/
theorem extract_units_children_only_class :
    ∀ (t : RawNode) (pc : Bool), ∀ u ∈ extract_semantic_units t pc,
      u.children ≠ [] → u.node_type = "class"
  | .mk isF isC isM isI name sRow eRow text cmt cs, pc => by
    intro u hu hch
    rw [extract_semantic_units] at hu
    by_cases hcond : (isF || isC || (isM && pc) || isI) = true
    · rw [if_pos hcond] at hu
      have hueq := List.mem_singleton.mp hu
      subst hueq
      by_cases hC : isC = true
      · simp only [hC, if_true, if_pos]
      · exact absurd (by simp [hC] : (⟨_, _, _, _, _, _, _⟩ : ASTUnit).children = []) hch
    · rw [if_neg hcond] at hu
      exact extract_forest_children_only_class cs pc u hu hch

/-- Forest version of the children-only-class property. -/
theorem extract_forest_children_only_class :
    ∀ (f : RawForest) (pc : Bool), ∀ u ∈ extract_semantic_units_forest f pc,
      u.children ≠ [] → u.node_type = "class"
  | .nil, pc => by
    intro u hu _
    rw [extract_semantic_units_forest] at hu
    exact absurd hu (List.not_mem_nil u)
  | .cons c rest, pc => by
    intro u hu hch
    rw [extract_semantic_units_forest] at hu
    rcases List.mem_append.mp hu with h1 | h2
    · exact extract_units_children_only_class c pc u h1 hch
    · exact extract_forest_children_only_class rest pc u h2 hch
end

/-- Any chunk contributed by an extracted semantic unit reaches the chunker
output. -/
theorem unit_contribution_mem_output (tree : RawNode) (lines : List String)
    (filename : String) (fileImports fileExports : List String)
    (ck : CodeChunk) (u : ASTUnit)
    (hu : u ∈ extract_semantic_units tree false)
    (hck : ck ∈ unit_contribution filename fileExports u) :
    ck ∈ chunk_with_ast tree lines filename fileImports fileExports := by
  have hne : ¬((extract_semantic_units tree false).isEmpty = true) := by
    simp only [List.isEmpty_iff]
    exact List.ne_nil_of_mem hu
  simp only [chunk_with_ast]
  rw [if_neg hne]
  rw [List.mem_insertionSort]
  apply List.mem_append_left
  rw [List.mem_flatMap]
  exact ⟨u, (List.mem_insertionSort _).mpr hu, hck⟩

/-- C7 amended: only class units record nested units as children, so only
nested units inside a class-like parent are candidates for separate
emission. For a recorded nested unit the decision is exactly the
threshold test: should_separate_nested holds precisely when the line
count reaches NestedThreshold (default 50), the unit contributes the
passing children as additional standalone chunks next to its own chunk,
and every passing child chunk reaches the chunker output. A nested
function inside a non-class unit is never emitted separately (see the
counterexample). -/
theorem nested_units_separated_iff_threshold
    (tree : RawNode) (lines : List String) (filename : String)
    (fileImports fileExports : List String) (u c : ASTUnit)
    (hu : u ∈ extract_semantic_units tree false) (hc : c ∈ u.children) :
    u.node_type = "class" ∧
    (should_separate_nested c u = true ↔
      NESTED_FUNCTION_SIZE_THRESHOLD ≤ c.line_count) ∧
    (unit_contribution filename fileExports u =
      (u.children.filter (fun x => should_separate_nested x u)).map
        (nested_chunk filename) ++ [unit_chunk filename fileExports u]) ∧
    (should_separate_nested c u = true →
      nested_chunk filename c ∈
        chunk_with_ast tree lines filename fileImports fileExports) := by
  refine ⟨?_, ?_, ?_, ?_⟩
  · exact extract_units_children_only_class tree false u hu
      (List.ne_nil_of_mem hc)
  · unfold should_separate_nested
    exact decide_eq_true_iff
  · unfold unit_contribution
    by_cases hch : u.children.isEmpty = true
    · have hnil : u.children = [] := List.isEmpty_iff.mp hch
      rw [hnil]
      simp
    · rw [if_pos (by simp [Bool.not_eq_true, hch])]
  · intro hsep
    apply unit_contribution_mem_output tree lines filename fileImports
      fileExports _ u hu
    unfold unit_contribution
    rw [if_pos (by
      simp only [Bool.not_eq_true', List.isEmpty_eq_false]
      exact List.ne_nil_of_mem hc : (!u.children.isEmpty) = true)]
    apply List.mem_append_left
    exact List.mem_map_of_mem _ (List.mem_filter.mpr ⟨hc, hsep⟩)

/-- Witness for the C7 amended theorem: the 54-line method recorded under
the witness class passes the threshold and its standalone chunk is in the
chunker output. -/
theorem nested_units_separated_iff_threshold_witness :
    sepWitnessClassUnit.node_type = "class" ∧
    nested_chunk "w.py" sepWitnessMethodUnit ∈
      chunk_with_ast sepWitnessRoot sepWitnessLines "w.py" [] [] := by
  have he : extract_semantic_units sepWitnessRoot false =
      [sepWitnessClassUnit] := rfl
  have hu : sepWitnessClassUnit ∈ extract_semantic_units sepWitnessRoot false := by
    rw [he]; exact List.mem_singleton_self _
  have hc : sepWitnessMethodUnit ∈ sepWitnessClassUnit.children :=
    List.mem_singleton_self _
  have h := nested_units_separated_iff_threshold sepWitnessRoot sepWitnessLines
    "w.py" [] [] sepWitnessClassUnit sepWitnessMethodUnit hu hc
  exact ⟨h.1, h.2.2.2 (by decide)⟩

/-- The cursor of the uncovered-range loop never moves backwards. -/
theorem find_uncovered_loop_fst_mono (covered : List (Int × Int)) :
    ∀ cur : Int, cur ≤ (find_uncovered_loop cur covered).1 := by
  induction covered with
  | nil => intro cur; rw [find_uncovered_loop]
  | cons p rest ih =>
    intro cur
    obtain ⟨s, e⟩ := p
    rw [find_uncovered_loop]
    have := ih (max cur (e + 1))
    simp only at this ⊢
    omega

/-- Every line below the final cursor of the uncovered-range loop lies in a
covered range or in a gap emitted by the loop. -/
theorem find_uncovered_loop_cover (covered : List (Int × Int)) :
    ∀ cur L : Int, (∀ p ∈ covered, p.1 ≤ p.2) → cur ≤ L →
      L + 1 ≤ (find_uncovered_loop cur covered).1 →
      (∃ p ∈ covered, p.1 ≤ L ∧ L ≤ p.2) ∨
      (∃ g ∈ (find_uncovered_loop cur covered).2, g.1 ≤ L ∧ L ≤ g.2) := by
  induction covered with
  | nil =>
    intro cur L _ hcl hl
    rw [find_uncovered_loop] at hl
    omega
  | cons p rest ih =>
    intro cur L hpp hcl hl
    obtain ⟨s, e⟩ := p
    have hse : s ≤ e := hpp (s, e) (List.mem_cons_self _ _)
    have hpprest : ∀ q ∈ rest, q.1 ≤ q.2 :=
      fun q hq => hpp q (List.mem_cons_of_mem _ hq)
    rw [find_uncovered_loop] at hl ⊢
    simp only at hl ⊢
    by_cases hA : L + 1 ≤ max cur (e + 1)
    · by_cases hcs : cur < s
      · by_cases hLs : L ≤ s - 1
        · refine Or.inr ⟨(cur, s - 1), ?_, by omega, by omega⟩
          rw [if_pos hcs]
          exact List.mem_append_left _ (List.mem_singleton_self _)
        · exact Or.inl ⟨(s, e), List.mem_cons_self _ _, by omega, by omega⟩
      · exact Or.inl ⟨(s, e), List.mem_cons_self _ _, by omega, by omega⟩
    · have hcl2 : max cur (e + 1) ≤ L := by omega
      rcases ih (max cur (e + 1)) L hpprest hcl2 hl with hcov | ⟨g, hg, hgl⟩
      · obtain ⟨q, hq, hql⟩ := hcov
        exact Or.inl ⟨q, List.mem_cons_of_mem _ hq, hql⟩
      · exact Or.inr ⟨g, List.mem_append_right _ hg, hgl⟩

/-- Every gap emitted by the loop starts at line one or later when the
cursor does. -/
theorem find_uncovered_loop_gap_pos (covered : List (Int × Int)) :
    ∀ cur : Int, 1 ≤ cur →
      ∀ g ∈ (find_uncovered_loop cur covered).2, 1 ≤ g.1 := by
  induction covered with
  | nil =>
    intro cur _ g hg
    rw [find_uncovered_loop] at hg
    exact absurd hg (List.not_mem_nil g)
  | cons p rest ih =>
    intro cur hcur g hg
    obtain ⟨s, e⟩ := p
    rw [find_uncovered_loop] at hg
    simp only at hg
    rcases List.mem_append.mp hg with h1 | h2
    · by_cases hcs : cur < s
      · rw [if_pos hcs] at h1
        have := List.mem_singleton.mp h1
        subst this
        exact hcur
      · rw [if_neg hcs] at h1
        exact absurd h1 (List.not_mem_nil g)
    · exact ih (max cur (e + 1)) (by omega) g h2

/-- Every line of the file lies in a covered range or in an uncovered
range, and the uncovered ranges start at line one or later. -/
theorem find_uncovered_ranges_cover (covered : List (Int × Int)) (T L : Int)
    (hpp : ∀ p ∈ covered, p.1 ≤ p.2) (h1 : 1 ≤ L) (h2 : L ≤ T) :
    (∃ p ∈ covered, p.1 ≤ L ∧ L ≤ p.2) ∨
    (∃ g ∈ find_uncovered_ranges covered T, 1 ≤ g.1 ∧ g.1 ≤ L ∧ L ≤ g.2) := by
  unfold find_uncovered_ranges
  by_cases hemp : covered.isEmpty = true
  · rw [if_pos hemp]
    exact Or.inr ⟨(1, T), List.mem_singleton_self _, by omega, by omega, by omega⟩
  · rw [if_neg hemp]
    by_cases hL : L + 1 ≤ (find_uncovered_loop 1 covered).1
    · rcases find_uncovered_loop_cover covered 1 L hpp h1 hL with hcov | ⟨g, hg, hgl⟩
      · exact Or.inl hcov
      · have hgpos := find_uncovered_loop_gap_pos covered 1 (by omega) g hg
        refine Or.inr ⟨g, ?_, hgpos, hgl⟩
        by_cases hT : (find_uncovered_loop 1 covered).1 ≤ T
        · rw [if_pos hT]; exact List.mem_append_left _ hg
        · rw [if_neg hT]; exact hg
    · have hfc : (find_uncovered_loop 1 covered).1 ≤ L := by omega
      have hT : (find_uncovered_loop 1 covered).1 ≤ T := le_trans hfc h2
      rw [if_pos hT]
      refine Or.inr ⟨((find_uncovered_loop 1 covered).1, T),
        List.mem_append_right _ (List.mem_singleton_self _), ?_, hfc, h2⟩
      have := find_uncovered_loop_fst_mono covered 1
      omega

/-- A line inside a gap window is among the sliced gap lines. -/
theorem mem_sliceLines {lines : List String} {L g1 g2 : Int} {s : String}
    (hs : lines[(L - 1).toNat]? = some s) (hg1 : 1 ≤ g1) (h1 : g1 ≤ L)
    (h2 : L ≤ g2) : s ∈ sliceLines lines g1 g2 := by
  unfold sliceLines
  have hidx : ((lines.drop (g1 - 1).toNat).take
      (g2 - (g1 - 1)).toNat)[(L - g1).toNat]? = some s := by
    rw [List.getElem?_take, if_pos (by omega), List.getElem?_drop]
    rw [show (g1 - 1).toNat + (L - g1).toNat = (L - 1).toNat by omega]
    exact hs
  exact List.getElem?_mem hidx

/-- A gap of the chunker with some non-blank sliced line yields an output
chunk with exactly the gap line range. -/
theorem gap_chunk_mem_output (tree : RawNode) (lines : List String)
    (filename : String) (fileImports fileExports : List String)
    (g : Int × Int)
    (hne : ¬((extract_semantic_units tree false).isEmpty = true))
    (hg : g ∈ find_uncovered_ranges
      (List.insertionSort pairLexLe
        ((List.insertionSort (fun a b => a.start_line ≤ b.start_line)
          (extract_semantic_units tree false)).map
            (fun u => (u.start_line, u.end_line))))
      ((lines.length : Int)))
    (hb : (sliceLines lines g.1 g.2).any (fun l => !isBlankStr l) = true) :
    ∃ c ∈ chunk_with_ast tree lines filename fileImports fileExports,
      c.start_line = g.1 ∧ c.end_line = g.2 := by
  simp only [chunk_with_ast]
  rw [if_neg hne]
  refine ⟨{ filename := filename, location := rangeLocation g.1 g.2,
            code := "\n".intercalate (sliceLines lines g.1 g.2),
            start_line := g.1, end_line := g.2, chunk_type := "other",
            symbol_name := none,
            symbol_names := extract_all_symbols_from_chunk tree g.1 g.2,
            imports := fileImports, exports := [] }, ?_, rfl, rfl⟩
  rw [List.mem_insertionSort]
  apply List.mem_append_right
  rw [List.mem_filterMap]
  refine ⟨g, hg, ?_⟩
  rw [if_pos hb]

/-- C2 amended: every non-blank line of the file lies in the line range of
at least one emitted chunk, whenever the extracted semantic units have
ordered bounds inside the file. Exactly-once coverage does not hold: a
nested unit separated by the threshold is emitted in addition to its
enclosing unit and the two ranges overlap (see the counterexample), so
at-least-once is the correct guarantee. -/
theorem chunker_covers_every_nonblank_line
    (tree : RawNode) (lines : List String) (filename : String)
    (fileImports fileExports : List String) (L : Int)
    (hunits : ∀ u ∈ extract_semantic_units tree false,
      u.start_line ≤ u.end_line ∧ u.end_line ≤ (lines.length : Int))
    (h1 : 1 ≤ L) (h2 : L ≤ (lines.length : Int))
    (hnb : nonBlankLine lines L = true) :
    ∃ c ∈ chunk_with_ast tree lines filename fileImports fileExports,
      c.start_line ≤ L ∧ L ≤ c.end_line := by
  obtain ⟨s, hs, hsb⟩ : ∃ s, lines[(L - 1).toNat]? = some s ∧
      isBlankStr s = false := by
    unfold nonBlankLine at hnb
    cases hg : lines[(L - 1).toNat]? with
    | none => rw [hg] at hnb; simp at hnb
    | some s =>
      rw [hg] at hnb
      simp only [Bool.not_eq_true'] at hnb
      exact ⟨s, rfl, hnb⟩
  by_cases hemp : (extract_semantic_units tree false).isEmpty = true
  · simp only [chunk_with_ast]
    rw [if_pos hemp]
    exact ⟨_, List.mem_singleton_self _, h1, h2⟩
  · have hpp : ∀ p ∈ List.insertionSort pairLexLe
        ((List.insertionSort (fun a b => a.start_line ≤ b.start_line)
          (extract_semantic_units tree false)).map
            (fun u => (u.start_line, u.end_line))), p.1 ≤ p.2 := by
      intro p hp
      have hp2 := (List.mem_insertionSort pairLexLe).mp hp
      obtain ⟨u, hu, hup⟩ := List.mem_map.mp hp2
      have hu2 := (List.mem_insertionSort _).mp hu
      have := (hunits u hu2).1
      rw [← hup]
      exact this
    rcases find_uncovered_ranges_cover _ ((lines.length : Int)) L hpp h1 h2 with
      ⟨p, hp, hps, hpe⟩ | ⟨g, hg, hg1, hgL, hLg⟩
    · have hp2 := (List.mem_insertionSort pairLexLe).mp hp
      obtain ⟨u, hu, hup⟩ := List.mem_map.mp hp2
      have hu2 := (List.mem_insertionSort _).mp hu
      refine ⟨unit_chunk filename fileExports u, ?_, ?_, ?_⟩
      · exact unit_contribution_mem_output tree lines filename fileImports
          fileExports _ u hu2
          (by
            unfold unit_contribution
            exact List.mem_append_right _ (List.mem_singleton_self _))
      · have : u.start_line = p.1 := by rw [← hup]
        simpa [unit_chunk, this] using hps
      · have : u.end_line = p.2 := by rw [← hup]
        simpa [unit_chunk, this] using hpe
    · have hb : (sliceLines lines g.1 g.2).any (fun l => !isBlankStr l) = true := by
        rw [List.any_eq_true]
        exact ⟨s, mem_sliceLines hs hg1 hgL hLg, by rw [hsb]; rfl⟩
      obtain ⟨c, hc, hc1, hc2⟩ := gap_chunk_mem_output tree lines filename
        fileImports fileExports g hemp hg hb
      exact ⟨c, hc, by omega, by omega⟩

/-- Witness for the C2 amended theorem: in the four-line witness file the
module-level line 4 is non-blank and covered by the gap chunk. -/
theorem chunker_covers_every_nonblank_line_witness :
    ∃ c ∈ chunk_with_ast covWitnessRoot covWitnessLines "g.py" [] [],
      c.start_line ≤ 4 ∧ (4 : Int) ≤ c.end_line :=
  chunker_covers_every_nonblank_line covWitnessRoot covWitnessLines "g.py"
    [] [] 4 (by decide) (by decide) (by decide) (by decide)
